import Mathlib

/-
Shallow embedding of the folio file server (Rust sources: src/config.rs,
src/files.rs, src/uploads.rs, src/workflow.rs) and proofs about it.

Paths are modelled as lists of component strings; the filesystem is a
function from such paths to an optional entry (regular file with content,
or directory).  Machine-level I/O failures (permissions, disk full) are
outside the model; the structural failure modes (target occupied by a
directory, an ancestor occupied by a regular file) are modelled exactly.
-/

namespace Folio

/-- Mirror of Rust `std::path::Component` as produced by
`Path::components()`: a root anchor, a current-directory marker, a
parent-directory marker, or a normal named component. -/
inductive Comp where
  | prefixDir (s : String) : Comp
  | rootDir : Comp
  | curDir : Comp
  | parentDir : Comp
  | normal (s : String) : Comp
deriving DecidableEq, Repr

/-- The name carried by a normal component, if any. -/
def normalName : Comp → Option String
  | Comp.normal s => some s
  | _ => none

/-- Embedding of the fold inside `Folio::build_full_upload_path`
(src/config.rs lines 18-26): push normal components onto an initially
empty path, ignore `CurDir`, `ParentDir`, `Prefix` and `RootDir`. -/
def normalizeComponents (rel : List Comp) : List String :=
  rel.foldl
    (fun path c =>
      match c with
      | Comp.normal s => path ++ [s]
      | _ => path)
    []

/-- Embedding of `Folio::build_full_upload_path` (src/config.rs lines
14-29): the configured base joined with the normalized relative path. -/
def buildFullUploadPath (base : List String) (rel : List Comp) : List String :=
  base ++ normalizeComponents rel

/-- Literal interpretation of a component-string list by the operating
system: a `..` name pops, a `.` name is skipped, any other name descends. -/
def resolveComps (l : List String) : List String :=
  l.foldl
    (fun acc s =>
      if s = ".." then acc.dropLast
      else if s = "." then acc
      else acc ++ [s])
    []

/-- A component is plain when, if it is a normal component, its name is
not a parent- or current-directory marker.  Rust's `Path::components`
never classifies `..` or `.` as `Component::Normal`, so every component
list it produces satisfies this. -/
def plainComp : Comp → Bool
  | Comp.normal s => decide (s ≠ "..") && decide (s ≠ ".")
  | _ => true

theorem normalizeComponents_aux (rel : List Comp) (acc : List String) :
    rel.foldl
      (fun path c =>
        match c with
        | Comp.normal s => path ++ [s]
        | _ => path)
      acc = acc ++ rel.filterMap normalName := by
  induction rel generalizing acc with
  | nil => simp
  | cons c rest ih =>
    cases c <;> simp [List.foldl_cons, ih, normalName, List.filterMap_cons]

theorem normalizeComponents_eq_filterMap (rel : List Comp) :
    normalizeComponents rel = rel.filterMap normalName := by
  simpa using normalizeComponents_aux rel []

theorem resolveComps_aux (l : List String) (acc : List String)
    (h : ∀ s ∈ l, s ≠ ".." ∧ s ≠ ".") :
    l.foldl
      (fun acc s =>
        if s = ".." then acc.dropLast
        else if s = "." then acc
        else acc ++ [s])
      acc = acc ++ l := by
  induction l generalizing acc with
  | nil => simp
  | cons s rest ih =>
    have hs := h s (List.mem_cons_self s rest)
    have hrest : ∀ t ∈ rest, t ≠ ".." ∧ t ≠ "." :=
      fun t ht => h t (List.mem_cons_of_mem s ht)
    rw [List.foldl_cons, if_neg hs.1, if_neg hs.2, ih (acc ++ [s]) hrest]
    simp

theorem resolveComps_of_plain (l : List String)
    (h : ∀ s ∈ l, s ≠ ".." ∧ s ≠ ".") : resolveComps l = l := by
  simpa using resolveComps_aux l [] h

theorem plain_filterMap (rel : List Comp) (h : rel.all plainComp = true) :
    ∀ s ∈ rel.filterMap normalName, s ≠ ".." ∧ s ≠ "." := by
  intro s hs
  rcases List.mem_filterMap.mp hs with ⟨c, hc, hcs⟩
  have hp : plainComp c = true := by
    exact List.all_eq_true.mp h c hc
  cases c with
  | normal t =>
    simp only [normalName, Option.some.injEq] at hcs
    subst hcs
    simp only [plainComp, Bool.and_eq_true, decide_eq_true_eq] at hp
    exact hp
  | prefixDir t => simp [normalName] at hcs
  | rootDir => simp [normalName] at hcs
  | curDir => simp [normalName] at hcs
  | parentDir => simp [normalName] at hcs

/-- C1: `build_full_upload_path` keeps exactly the normal components of
the input, in their original order, dropping current-directory,
parent-directory, prefix and root components; the storage base is a
prefix of the joined result, and the retained suffix is already in
resolved form (it contains no `..` or `.` names), so joining the base
with the normalized path never resolves outside the base — for every
input, including `a/../../etc/passwd`, `./x`, and absolute-looking
paths. -/
theorem build_full_upload_path_stays_under_root
    (base : List String) (rel : List Comp) (h : rel.all plainComp = true) :
    buildFullUploadPath base rel = base ++ rel.filterMap normalName ∧
    base <+: buildFullUploadPath base rel ∧
    resolveComps (normalizeComponents rel) = normalizeComponents rel := by
  refine ⟨?_, ?_, ?_⟩
  · simp [buildFullUploadPath, normalizeComponents_eq_filterMap]
  · exact ⟨normalizeComponents rel, rfl⟩
  · rw [normalizeComponents_eq_filterMap]
    exact resolveComps_of_plain _ (plain_filterMap rel h)

/-- Witness for C1 at the input `a/../../etc/passwd`: the hypothesis
holds and the normalized result keeps `a`, `etc`, `passwd` under the
root. -/
theorem build_full_upload_path_stays_under_root_witness :
    ([Comp.normal "a", Comp.parentDir, Comp.parentDir, Comp.normal "etc",
      Comp.normal "passwd"].all plainComp = true) ∧
    (buildFullUploadPath ["root", "uploads"]
      [Comp.normal "a", Comp.parentDir, Comp.parentDir, Comp.normal "etc",
       Comp.normal "passwd"] =
      ["root", "uploads"] ++
        ([Comp.normal "a", Comp.parentDir, Comp.parentDir, Comp.normal "etc",
          Comp.normal "passwd"].filterMap normalName) ∧
     ["root", "uploads"] <+: buildFullUploadPath ["root", "uploads"]
        [Comp.normal "a", Comp.parentDir, Comp.parentDir, Comp.normal "etc",
         Comp.normal "passwd"] ∧
     resolveComps (normalizeComponents
        [Comp.normal "a", Comp.parentDir, Comp.parentDir, Comp.normal "etc",
         Comp.normal "passwd"]) =
       normalizeComponents
        [Comp.normal "a", Comp.parentDir, Comp.parentDir, Comp.normal "etc",
         Comp.normal "passwd"]) :=
  ⟨by decide,
   build_full_upload_path_stays_under_root ["root", "uploads"]
     [Comp.normal "a", Comp.parentDir, Comp.parentDir, Comp.normal "etc",
      Comp.normal "passwd"] (by decide)⟩

/-! ## Filesystem model -/

/-- An entry in the filesystem: a regular file with its content (a byte
list), or a directory. -/
inductive Entry where
  | file (content : List Nat) : Entry
  | dir : Entry
deriving DecidableEq, Repr

/-- A filesystem: a partial map from component-string paths to entries. -/
def FS : Type := List String → Option Entry

/-- `Path::exists` at a resolved path: anything (file or directory) is
there. -/
def existsAt (fs : FS) (p : List String) : Bool :=
  (fs p).isSome

/-- `Path::is_file` at a resolved path. -/
def isFileAt (fs : FS) (p : List String) : Bool :=
  match fs p with
  | some (Entry.file _) => true
  | _ => false

/-- Whether a directory sits at the path. -/
def isDirAt (fs : FS) (p : List String) : Bool :=
  match fs p with
  | some Entry.dir => true
  | _ => false

/-- Overwrite the entry at `p` with a regular file holding `c`. -/
def fsWrite (fs : FS) (p : List String) (c : List Nat) : FS :=
  fun q => if q = p then some (Entry.file c) else fs q

/-- Remove the entry at `p` (`std::fs::remove_file` on success). -/
def fsRemove (fs : FS) (p : List String) : FS :=
  fun q => if q = p then none else fs q

/-- The strict, nonempty ancestors of a path. -/
def properAncestors (p : List String) : List (List String) :=
  ((List.range p.length).map (fun n => p.take n)).filter (fun q => q ≠ [])

/-- `std::fs::create_dir_all` fails when some strict ancestor of the
path is occupied by a regular file. -/
def ancestorBlocked (fs : FS) (p : List String) : Bool :=
  (properAncestors p).any (fun q => isFileAt fs q)

/-- Mark every strict, nonempty ancestor of `p` as a directory
(`create_dir_all` on the parent of `p`). -/
def mkParents (fs : FS) (p : List String) : FS :=
  fun q =>
    if q.isPrefixOf p && q ≠ p && q ≠ [] then some Entry.dir else fs q

/-- Embedding of `ensure_parent_dirs` (src/files.rs lines 52-61):
create all missing parent directories, failing (HTTP 500 in the
handler) when an ancestor is occupied by a regular file. -/
def ensureParentDirs (fs : FS) (p : List String) : Option FS :=
  if ancestorBlocked fs p then none else some (mkParents fs p)

/-- `TempFile::copy_to`: writing to a path occupied by a directory
fails with an I/O error; otherwise the destination now holds exactly
the given content. -/
def copyTo (fs : FS) (p : List String) (c : List Nat) : Option FS :=
  if isDirAt fs p then none else some (fsWrite fs p c)

/-! ## HTTP handlers over resolved paths (src/files.rs) -/

/-- HTTP statuses produced by the file handlers. -/
inductive HStatus where
  | created : HStatus
  | okS : HStatus
  | conflict : HStatus
  | notFound : HStatus
  | badRequest : HStatus
  | internalError : HStatus
deriving DecidableEq, Repr

/-- Embedding of `create_file` (src/files.rs lines 63-96): resolve the
path, return 409 Conflict if anything exists there, else create parent
directories and persist the content, returning 201 Created.  The
resulting filesystem is returned alongside the status. -/
def create_file (base : List String) (fs : FS) (rel : List Comp)
    (c : List Nat) : HStatus × FS :=
  let full := buildFullUploadPath base rel
  if existsAt fs full then (HStatus.conflict, fs)
  else
    match ensureParentDirs fs full with
    | none => (HStatus.internalError, fs)
    | some fs1 =>
      match copyTo fs1 full c with
      | none => (HStatus.internalError, fs1)
      | some fs2 => (HStatus.created, fs2)

/-- Embedding of `upsert_file` (src/files.rs lines 98-131): record
whether the path existed, create parent directories, persist the
content (overwriting), and report 200 Ok when the path existed before
the write, else 201 Created. -/
def upsert_file (base : List String) (fs : FS) (rel : List Comp)
    (c : List Nat) : HStatus × FS :=
  let full := buildFullUploadPath base rel
  let fileExists := existsAt fs full
  match ensureParentDirs fs full with
  | none => (HStatus.internalError, fs)
  | some fs1 =>
    match copyTo fs1 full c with
    | none => (HStatus.internalError, fs1)
    | some fs2 =>
      if fileExists then (HStatus.okS, fs2) else (HStatus.created, fs2)

/-- Embedding of `delete_file` (src/files.rs lines 133-170): 404 Not
Found if nothing exists at the resolved path, 400 Bad Request if what
exists is not a regular file, else remove the file and return 200
Ok. -/
def delete_file (base : List String) (fs : FS) (rel : List Comp) :
    HStatus × FS :=
  let full := buildFullUploadPath base rel
  if ¬ existsAt fs full then (HStatus.notFound, fs)
  else if ¬ isFileAt fs full then (HStatus.badRequest, fs)
  else (HStatus.okS, fsRemove fs full)

/-! ## Path validation at the HTTP boundary (src/files.rs lines 26-41) -/

/-- Rendering of a relative `PathBuf` by `to_string_lossy`: components
joined by the separator. -/
def renderPath (p : List String) : String :=
  String.intercalate "/" p

/-- Two consecutive dots somewhere in the character list — exactly
`str.contains("..")` on the rendered path. -/
def hasDotDot : List Char → Bool
  | c1 :: c2 :: rest => (c1 = '.' && c2 = '.') || hasDotDot (c2 :: rest)
  | _ => false

/-- Errors of segment-to-path conversion and validation. -/
inductive SegErr where
  | badSegment : SegErr
  | dotDot : SegErr
deriving DecidableEq, Repr

/-- `str.starts_with(c)` for a single-character pattern, phrased on the
character list so it evaluates in the kernel. -/
def headIs (s : String) (c : Char) : Bool :=
  decide (s.data.head? = some c)

/-- `str.ends_with(c)` for a single-character pattern. -/
def lastIs (s : String) (c : Char) : Bool :=
  decide (s.data.getLast? = some c)

/-- `str.contains(c)` for a character. -/
def hasChar (s : String) (c : Char) : Bool :=
  s.data.contains c

/-- One step of Rocket's `Segments::to_path_buf` (dotfiles disallowed),
which `PathBuf::from_segments` delegates to: a `..` segment pops the
last accepted component; a segment starting with a dot or an asterisk,
ending in a colon or an angle bracket, or containing a separator is
rejected; an empty segment adds no component; any other segment is
pushed. -/
def segPush (buf : List String) (s : String) : Except SegErr (List String) :=
  if s = ".." then Except.ok buf.dropLast
  else if headIs s '.' then Except.error SegErr.badSegment
  else if headIs s '*' then Except.error SegErr.badSegment
  else if lastIs s ':' then Except.error SegErr.badSegment
  else if lastIs s '>' then Except.error SegErr.badSegment
  else if lastIs s '<' then Except.error SegErr.badSegment
  else if hasChar s '/' then Except.error SegErr.badSegment
  else if s = "" then Except.ok buf
  else Except.ok (buf ++ [s])

/-- Fold of `segPush` over the decoded segments, starting from an empty
path (`PathBuf::from_segments`). -/
def toPathBuf : List String → List String → Except SegErr (List String)
  | buf, [] => Except.ok buf
  | buf, s :: rest =>
    match segPush buf s with
    | Except.error e => Except.error e
    | Except.ok buf2 => toPathBuf buf2 rest

/-- Embedding of `ValidatedPath::from_segments` (src/files.rs lines
26-41): convert the segments to a path, then reject the result when its
string rendering contains two consecutive dots. -/
def validated_path_from_segments (segs : List String) :
    Except SegErr (List String) :=
  match toPathBuf [] segs with
  | Except.error _ => Except.error SegErr.badSegment
  | Except.ok p =>
    if hasDotDot (renderPath p).data then Except.error SegErr.dotDot
    else Except.ok p

/-- A decoded segment that `segPush` accepts by pushing it: nonempty,
not `..`, no leading dot or asterisk, no trailing colon or angle
bracket, no separator inside. -/
def plainSeg (s : String) : Bool :=
  decide (s ≠ "..") && !(headIs s '.') && !(headIs s '*') &&
    !(lastIs s ':') && !(lastIs s '>') && !(lastIs s '<') &&
    !(hasChar s '/') && decide (s ≠ "")

/-! ## Expiration deletion activity (src/workflow.rs lines 15-32) -/

/-- Result of a Temporal activity invocation. -/
inductive ActResult where
  | ok : ActResult
  | err : ActResult
deriving DecidableEq, Repr

/-- Embedding of `delete_file_activity` (src/workflow.rs lines 15-32):
if something exists at the target path, remove it — an error is
reported exactly when removal fails, which structurally is the target
being a directory — and if nothing exists there, log and return
success. -/
def delete_file_activity (fs : FS) (p : List String) : ActResult × FS :=
  if existsAt fs p then
    if isDirAt fs p then (ActResult.err, fs)
    else (ActResult.ok, fsRemove fs p)
  else (ActResult.ok, fs)

/-! ## Anonymous uploads (src/uploads.rs) -/

/-- Embedding of `UploadId::file_name` (src/uploads.rs lines 33-35):
the id alone without an extension, else `id.extension`. -/
def file_name (id : String) (extension : Option String) : String :=
  match extension with
  | none => id
  | some e => id ++ "." ++ e

/-- The resolved candidate path for the `k`-th generated id: the
file name parsed as a single normal component and joined under the
base (src/uploads.rs lines 63-65). -/
def candidatePath (base : List String) (ids : Nat → String)
    (extension : Option String) (k : Nat) : List String :=
  buildFullUploadPath base [Comp.normal (file_name (ids k) extension)]

/-- Embedding of the candidate-selection loop of `upload_file`
(src/uploads.rs lines 62-69), with the random generator modelled as a
stream `ids` of candidate ids and the unbounded `loop` given explicit
fuel: starting at stream position `k`, return the first candidate whose
resolved path does not exist, or `none` when the fuel runs out before
the loop breaks. -/
def fresh_id_from (base : List String) (fs : FS) (ids : Nat → String)
    (extension : Option String) : Nat → Nat → Option String
  | _, 0 => none
  | k, fuel + 1 =>
    if ¬ existsAt fs (candidatePath base ids extension k) then some (ids k)
    else fresh_id_from base fs ids extension (k + 1) fuel

/-- Embedding of `upload_file` (src/uploads.rs lines 46-89).  The
handler logs the `expire` query parameter, selects a fresh id, persists
the content at the resolved path, and returns the location
`/files/<file_name>`.  The third result component records every
expiration task registered with the scheduler during the request; the
handler body contains no scheduler interaction, so that list is
empty. -/
def upload_file (base : List String) (fs : FS) (ids : Nat → String)
    (extension : Option String) (expire : Option String) (c : List Nat)
    (fuel : Nat) :
    Option (String × FS × List (List String × String)) :=
  let _logged := expire
  match fresh_id_from base fs ids extension 0 fuel with
  | none => none
  | some id =>
    let fn := file_name id extension
    let full := buildFullUploadPath base [Comp.normal fn]
    some ("/files/" ++ fn, fsWrite fs full c, [])

/-! ## Basic facts about the filesystem model -/

theorem existsAt_of_isDir (fs : FS) (p : List String)
    (h : isDirAt fs p = true) : existsAt fs p = true := by
  unfold isDirAt at h
  unfold existsAt
  cases hfs : fs p with
  | none => rw [hfs] at h; cases h
  | some e => simp

theorem not_isFile_of_isDir (fs : FS) (p : List String)
    (h : isDirAt fs p = true) : isFileAt fs p = false := by
  unfold isDirAt at h
  unfold isFileAt
  cases hfs : fs p with
  | none => simp [hfs] at h
  | some e =>
    cases e with
    | file c => simp [hfs] at h
    | dir => simp [hfs]

theorem existsAt_of_isFile (fs : FS) (p : List String)
    (h : isFileAt fs p = true) : existsAt fs p = true := by
  unfold isFileAt at h
  unfold existsAt
  cases hfs : fs p with
  | none => rw [hfs] at h; cases h
  | some e => simp

theorem mkParents_self (fs : FS) (p : List String) : mkParents fs p p = fs p := by
  simp [mkParents]

theorem fsWrite_self (fs : FS) (p : List String) (c : List Nat) :
    fsWrite fs p c p = some (Entry.file c) := by
  simp [fsWrite]

theorem fsRemove_self (fs : FS) (p : List String) : fsRemove fs p p = none := by
  simp [fsRemove]

/-! ## Concrete fixtures used by witnesses and counterexamples -/

/-- A filesystem holding a single directory at `u/d`. -/
def fsDirAtD : FS := fun q => if q = ["u", "d"] then some Entry.dir else none

/-- A filesystem holding a single regular file at `u/f`. -/
def fsFileAtF : FS :=
  fun q => if q = ["u", "f"] then some (Entry.file [1]) else none

/-- The empty filesystem. -/
def fsEmpty : FS := fun _ => none

/-- A filesystem in which every path is occupied by a directory. -/
def fsFull : FS := fun _ => some Entry.dir

/-- An id stream that always produces the same candidate. -/
def idsConst : Nat → String := fun _ => "AAAAAAAA"

/-- An id stream producing `A` first and `B` from then on. -/
def idsAB : Nat → String := fun k => if k = 0 then "A" else "B"

/-- A filesystem occupying the resolved path of candidate `A.txt`. -/
def fsTakenA : FS :=
  fun q => if q = ["u", "A.txt"] then some (Entry.file [0]) else none

theorem eq_none_of_not_existsAt (fs : FS) (p : List String)
    (h : existsAt fs p = false) : fs p = none := by
  unfold existsAt at h
  cases hfs : fs p with
  | none => rfl
  | some e => simp [hfs] at h

theorem not_isDir_of_isFile (fs : FS) (p : List String)
    (h : isFileAt fs p = true) : isDirAt fs p = false := by
  unfold isFileAt at h
  unfold isDirAt
  cases hfs : fs p with
  | none => simp [hfs] at h
  | some e =>
    cases e with
    | file c => simp [hfs]
    | dir => simp [hfs] at h

/-- C3 (amended): `create_file` answers 409 Conflict, leaving the
filesystem unchanged, when anything (file or directory) exists at the
resolved path; otherwise — provided no ancestor of the path is occupied
by a regular file, which would instead surface as a 500 I/O failure —
it creates the missing parent directories, writes the content, and the
path afterwards holds exactly that content; and a create immediately
following a successful create of the same path always answers 409 and
leaves the originally written content unchanged. -/
theorem create_file_contract (base : List String) (fs : FS) (rel : List Comp)
    (c : List Nat) :
    (existsAt fs (buildFullUploadPath base rel) = true →
        create_file base fs rel c = (HStatus.conflict, fs)) ∧
    (existsAt fs (buildFullUploadPath base rel) = false →
     ancestorBlocked fs (buildFullUploadPath base rel) = false →
        create_file base fs rel c =
          (HStatus.created,
           fsWrite (mkParents fs (buildFullUploadPath base rel))
             (buildFullUploadPath base rel) c) ∧
        (create_file base fs rel c).2 (buildFullUploadPath base rel) =
          some (Entry.file c)) ∧
    ((create_file base fs rel c).1 = HStatus.created →
        ∀ c2, create_file base (create_file base fs rel c).2 rel c2 =
            (HStatus.conflict, (create_file base fs rel c).2) ∧
          (create_file base fs rel c).2 (buildFullUploadPath base rel) =
            some (Entry.file c)) := by
  have hkey : existsAt fs (buildFullUploadPath base rel) = false →
      ancestorBlocked fs (buildFullUploadPath base rel) = false →
      create_file base fs rel c =
        (HStatus.created,
         fsWrite (mkParents fs (buildFullUploadPath base rel))
           (buildFullUploadPath base rel) c) := by
    intro h1 h2
    have hnone := eq_none_of_not_existsAt _ _ h1
    simp [create_file, h1, ensureParentDirs, h2, copyTo, isDirAt,
      mkParents_self, hnone]
  refine ⟨?_, ?_, ?_⟩
  · intro h
    simp [create_file, h]
  · intro h1 h2
    refine ⟨hkey h1 h2, ?_⟩
    rw [hkey h1 h2]
    exact fsWrite_self _ _ _
  · intro h c2
    cases hex : existsAt fs (buildFullUploadPath base rel) with
    | true =>
      have e : create_file base fs rel c = (HStatus.conflict, fs) := by
        simp [create_file, hex]
      rw [e] at h
      cases h
    | false =>
      cases hblk : ancestorBlocked fs (buildFullUploadPath base rel) with
      | true =>
        have e : create_file base fs rel c = (HStatus.internalError, fs) := by
          simp [create_file, hex, ensureParentDirs, hblk]
        rw [e] at h
        cases h
      | false =>
        have e := hkey hex hblk
        rw [e]
        have hex2 : existsAt
            (fsWrite (mkParents fs (buildFullUploadPath base rel))
              (buildFullUploadPath base rel) c)
            (buildFullUploadPath base rel) = true := by
          simp [existsAt, fsWrite]
        exact ⟨by simp [create_file, hex2], fsWrite_self _ _ _⟩

/-- Counterexample for C3 as stated: with a directory at the resolved
path `u/d`, no regular file exists there, yet `create_file` answers 409
Conflict and does not write the content. -/
theorem create_file_claim_counterexample :
    isFileAt fsDirAtD (buildFullUploadPath ["u"] [Comp.normal "d"]) = false ∧
    (create_file ["u"] fsDirAtD [Comp.normal "d"] [1]).1 = HStatus.conflict ∧
    (create_file ["u"] fsDirAtD [Comp.normal "d"] [1]).1 ≠ HStatus.created ∧
    (create_file ["u"] fsDirAtD [Comp.normal "d"] [1]).2
        (buildFullUploadPath ["u"] [Comp.normal "d"]) ≠
      some (Entry.file [1]) := by
  decide

/-- Witness for C3 (amended): on an empty store, creating `u/d` returns
201 with the exact content, and an immediately repeated create answers
409 leaving the first content in place. -/
theorem create_file_contract_witness :
    (create_file ["u"] fsEmpty [Comp.normal "d"] [1] =
        (HStatus.created,
         fsWrite (mkParents fsEmpty (buildFullUploadPath ["u"] [Comp.normal "d"]))
           (buildFullUploadPath ["u"] [Comp.normal "d"]) [1]) ∧
      (create_file ["u"] fsEmpty [Comp.normal "d"] [1]).2
          (buildFullUploadPath ["u"] [Comp.normal "d"]) =
        some (Entry.file [1])) ∧
    (create_file ["u"] (create_file ["u"] fsEmpty [Comp.normal "d"] [1]).2
        [Comp.normal "d"] [2] =
        (HStatus.conflict, (create_file ["u"] fsEmpty [Comp.normal "d"] [1]).2) ∧
      (create_file ["u"] fsEmpty [Comp.normal "d"] [1]).2
          (buildFullUploadPath ["u"] [Comp.normal "d"]) =
        some (Entry.file [1])) :=
  ⟨(create_file_contract ["u"] fsEmpty [Comp.normal "d"] [1]).2.1
      (by decide) (by decide),
   (create_file_contract ["u"] fsEmpty [Comp.normal "d"] [1]).2.2
      (by decide) [2]⟩

/-- C4 (amended): provided no ancestor of the resolved path is occupied
by a regular file (which would surface as a 500 I/O failure),
`upsert_file` on an absent path answers 201 Created and leaves the
path holding exactly the input content, and on a path holding a regular
file answers 200 Ok and replaces the content entirely; when a directory
occupies the path the write fails with 500 Internal Server Error rather
than 200; Created versus Ok is determined by whether anything existed
at the path before the write. -/
theorem upsert_file_contract (base : List String) (fs : FS) (rel : List Comp)
    (c : List Nat) :
    (ancestorBlocked fs (buildFullUploadPath base rel) = false →
     fs (buildFullUploadPath base rel) = none →
        upsert_file base fs rel c =
          (HStatus.created,
           fsWrite (mkParents fs (buildFullUploadPath base rel))
             (buildFullUploadPath base rel) c) ∧
        (upsert_file base fs rel c).2 (buildFullUploadPath base rel) =
          some (Entry.file c)) ∧
    (ancestorBlocked fs (buildFullUploadPath base rel) = false →
     isFileAt fs (buildFullUploadPath base rel) = true →
        upsert_file base fs rel c =
          (HStatus.okS,
           fsWrite (mkParents fs (buildFullUploadPath base rel))
             (buildFullUploadPath base rel) c) ∧
        (upsert_file base fs rel c).2 (buildFullUploadPath base rel) =
          some (Entry.file c)) ∧
    (isDirAt fs (buildFullUploadPath base rel) = true →
        (upsert_file base fs rel c).1 = HStatus.internalError) := by
  refine ⟨?_, ?_, ?_⟩
  · intro hb hnone
    have e : upsert_file base fs rel c =
        (HStatus.created,
         fsWrite (mkParents fs (buildFullUploadPath base rel))
           (buildFullUploadPath base rel) c) := by
      simp [upsert_file, ensureParentDirs, hb, copyTo, isDirAt,
        mkParents_self, hnone, existsAt]
    refine ⟨e, ?_⟩
    rw [e]
    exact fsWrite_self _ _ _
  · intro hb hf
    have hex := existsAt_of_isFile _ _ hf
    have hnd := not_isDir_of_isFile _ _ hf
    have e : upsert_file base fs rel c =
        (HStatus.okS,
         fsWrite (mkParents fs (buildFullUploadPath base rel))
           (buildFullUploadPath base rel) c) := by
      simp [upsert_file, ensureParentDirs, hb, copyTo, isDirAt,
        mkParents_self, hex]
      simp [isDirAt] at hnd
      simp [hnd]
    refine ⟨e, ?_⟩
    rw [e]
    exact fsWrite_self _ _ _
  · intro hd
    cases hblk : ancestorBlocked fs (buildFullUploadPath base rel) with
    | true =>
      simp [upsert_file, ensureParentDirs, hblk]
    | false =>
      have hdm : isDirAt (mkParents fs (buildFullUploadPath base rel))
          (buildFullUploadPath base rel) = true := by
        unfold isDirAt at hd ⊢
        rw [mkParents_self]
        exact hd
      simp [upsert_file, ensureParentDirs, hblk, copyTo, hdm]

/-- Counterexample for C4 as stated: with a directory at the resolved
path `u/d` the path is present, yet `upsert_file` answers 500 Internal
Server Error, not 200 Ok. -/
theorem upsert_file_claim_counterexample :
    existsAt fsDirAtD (buildFullUploadPath ["u"] [Comp.normal "d"]) = true ∧
    (upsert_file ["u"] fsDirAtD [Comp.normal "d"] [1]).1 =
      HStatus.internalError ∧
    (upsert_file ["u"] fsDirAtD [Comp.normal "d"] [1]).1 ≠ HStatus.okS := by
  decide

/-- Witness for C4 (amended): upsert creates `u/d` on the empty store
with 201 and the exact content, and upsert over the existing regular
file `u/f` answers 200 and replaces the content. -/
theorem upsert_file_contract_witness :
    (upsert_file ["u"] fsEmpty [Comp.normal "d"] [1] =
        (HStatus.created,
         fsWrite (mkParents fsEmpty (buildFullUploadPath ["u"] [Comp.normal "d"]))
           (buildFullUploadPath ["u"] [Comp.normal "d"]) [1]) ∧
      (upsert_file ["u"] fsEmpty [Comp.normal "d"] [1]).2
          (buildFullUploadPath ["u"] [Comp.normal "d"]) =
        some (Entry.file [1])) ∧
    (upsert_file ["u"] fsFileAtF [Comp.normal "f"] [2] =
        (HStatus.okS,
         fsWrite (mkParents fsFileAtF (buildFullUploadPath ["u"] [Comp.normal "f"]))
           (buildFullUploadPath ["u"] [Comp.normal "f"]) [2]) ∧
      (upsert_file ["u"] fsFileAtF [Comp.normal "f"] [2]).2
          (buildFullUploadPath ["u"] [Comp.normal "f"]) =
        some (Entry.file [2])) :=
  ⟨(upsert_file_contract ["u"] fsEmpty [Comp.normal "d"] [1]).1
      (by decide) (by decide),
   (upsert_file_contract ["u"] fsFileAtF [Comp.normal "f"] [2]).2.1
      (by decide) (by decide)⟩

/-- C5: `delete_file` returns 404 Not Found when nothing exists at the
resolved path (leaving the filesystem unchanged), 400 Bad Request when
a directory sits there, and otherwise removes the regular file and
returns 200 Ok; the existence check runs first, so a delete following a
successful delete of the same path yields 404 Not Found. -/
theorem delete_file_contract (base : List String) (fs : FS) (rel : List Comp) :
    (existsAt fs (buildFullUploadPath base rel) = false →
        delete_file base fs rel = (HStatus.notFound, fs)) ∧
    (isDirAt fs (buildFullUploadPath base rel) = true →
        delete_file base fs rel = (HStatus.badRequest, fs)) ∧
    (isFileAt fs (buildFullUploadPath base rel) = true →
        delete_file base fs rel =
          (HStatus.okS, fsRemove fs (buildFullUploadPath base rel))) ∧
    ((delete_file base fs rel).1 = HStatus.okS →
        (delete_file base (delete_file base fs rel).2 rel).1 =
          HStatus.notFound) := by
  refine ⟨?_, ?_, ?_, ?_⟩
  · intro h
    simp [delete_file, h]
  · intro h
    simp [delete_file, existsAt_of_isDir _ _ h, not_isFile_of_isDir _ _ h]
  · intro h
    simp [delete_file, existsAt_of_isFile _ _ h, h]
  · intro h
    by_cases h1 : existsAt fs (buildFullUploadPath base rel) = true
    · by_cases h2 : isFileAt fs (buildFullUploadPath base rel) = true
      · have e : delete_file base fs rel =
            (HStatus.okS, fsRemove fs (buildFullUploadPath base rel)) := by
          simp [delete_file, h1, h2]
        rw [e]
        have hgone :
            existsAt (fsRemove fs (buildFullUploadPath base rel))
              (buildFullUploadPath base rel) = false := by
          simp [existsAt, fsRemove]
        simp [delete_file, hgone]
      · have e : delete_file base fs rel = (HStatus.badRequest, fs) := by
          simp [delete_file, h1, h2]
        rw [e] at h
        cases h
    · have e : delete_file base fs rel = (HStatus.notFound, fs) := by
        simp [delete_file, h1]
      rw [e] at h
      cases h

/-- Witness for C5: deleting the file at `u/f` succeeds with 200 and a
second delete of the same path yields 404. -/
theorem delete_file_contract_witness :
    (delete_file ["u"] fsFileAtF [Comp.normal "f"] =
      (HStatus.okS, fsRemove fsFileAtF (buildFullUploadPath ["u"] [Comp.normal "f"]))) ∧
    (delete_file ["u"] (delete_file ["u"] fsFileAtF [Comp.normal "f"]).2
        [Comp.normal "f"]).1 = HStatus.notFound :=
  ⟨(delete_file_contract ["u"] fsFileAtF [Comp.normal "f"]).2.2.1 (by decide),
   (delete_file_contract ["u"] fsFileAtF [Comp.normal "f"]).2.2.2 (by decide)⟩

/-- C7: the expiration deletion activity is idempotent delete-if-exists:
when nothing exists at the target it returns success and changes
nothing; it reports an error only when something exists at the target
and removing it fails (structurally: the target is a directory); and
whenever a call succeeds, an immediately repeated call also
succeeds. -/
theorem delete_file_activity_contract (fs : FS) (p : List String) :
    (fs p = none → delete_file_activity fs p = (ActResult.ok, fs)) ∧
    ((delete_file_activity fs p).1 = ActResult.err →
        existsAt fs p = true ∧ isDirAt fs p = true) ∧
    ((delete_file_activity fs p).1 = ActResult.ok →
        (delete_file_activity (delete_file_activity fs p).2 p).1 =
          ActResult.ok) := by
  refine ⟨?_, ?_, ?_⟩
  · intro h
    simp [delete_file_activity, existsAt, h]
  · intro h
    cases hfs : fs p with
    | none => simp [delete_file_activity, existsAt, hfs] at h
    | some e =>
      cases e with
      | file c => simp [delete_file_activity, existsAt, isDirAt, hfs] at h
      | dir => exact ⟨by simp [existsAt, hfs], by simp [isDirAt, hfs]⟩
  · intro h
    cases hfs : fs p with
    | none =>
      have e : delete_file_activity fs p = (ActResult.ok, fs) := by
        simp [delete_file_activity, existsAt, hfs]
      rw [e]
      simp [delete_file_activity, existsAt, hfs]
    | some e =>
      cases e with
      | file c =>
        have e2 : delete_file_activity fs p = (ActResult.ok, fsRemove fs p) := by
          simp [delete_file_activity, existsAt, isDirAt, hfs]
        rw [e2]
        simp [delete_file_activity, existsAt, fsRemove]
      | dir =>
        have e2 : delete_file_activity fs p = (ActResult.err, fs) := by
          simp [delete_file_activity, existsAt, isDirAt, hfs]
        rw [e2] at h
        cases h

/-- Witness for C7: the activity succeeds on the file at `u/f`, and the
repeated call (the file now being absent) succeeds as well. -/
theorem delete_file_activity_contract_witness :
    (delete_file_activity fsFileAtF ["u", "f"]).1 = ActResult.ok ∧
    (delete_file_activity (delete_file_activity fsFileAtF ["u", "f"]).2
        ["u", "f"]).1 = ActResult.ok :=
  ⟨by decide,
   (delete_file_activity_contract fsFileAtF ["u", "f"]).2.2 (by decide)⟩

/-- C10: the existence pre-check of `create_file` tests whether anything
exists at the resolved path, not whether a regular file does: when a
directory sits at the path, `create_file` returns 409 Conflict and
writes nothing, even though no regular file exists there. -/
theorem create_file_conflict_on_directory (base : List String) (fs : FS)
    (rel : List Comp) (c : List Nat)
    (h : isDirAt fs (buildFullUploadPath base rel) = true) :
    create_file base fs rel c = (HStatus.conflict, fs) ∧
    isFileAt fs (buildFullUploadPath base rel) = false :=
  ⟨by simp [create_file, existsAt_of_isDir _ _ h], not_isFile_of_isDir _ _ h⟩

/-- Witness for C10: a directory at `u/d` makes `create_file` answer
409 Conflict without writing, though no regular file is there. -/
theorem create_file_conflict_on_directory_witness :
    create_file ["u"] fsDirAtD [Comp.normal "d"] [1] =
      (HStatus.conflict, fsDirAtD) ∧
    isFileAt fsDirAtD (buildFullUploadPath ["u"] [Comp.normal "d"]) = false :=
  create_file_conflict_on_directory ["u"] fsDirAtD [Comp.normal "d"] [1]
    (by decide)

/-- C2 divergence: on every successful upload — in particular when the
`expire` parameter is given — the list of expiration tasks registered
with the scheduler during the request is empty: the handler contains no
scheduler interaction and the TTL is silently dropped. -/
theorem upload_file_registers_no_expiration (base : List String) (fs : FS)
    (ids : Nat → String) (extension : Option String) (expire : Option String)
    (c : List Nat) (fuel : Nat) (r : String × FS × List (List String × String))
    (h : upload_file base fs ids extension expire c fuel = some r) :
    r.2.2 = [] := by
  simp only [upload_file] at h
  cases hid : fresh_id_from base fs ids extension 0 fuel with
  | none => rw [hid] at h; cases h
  | some id =>
    rw [hid] at h
    simp only [Option.some.injEq] at h
    rw [← h]

/-- Witness for C2: a concrete upload with `expire` set succeeds and
registers no expiration task. -/
theorem upload_file_registers_no_expiration_witness :
    (upload_file ["u"] fsEmpty idsConst (some "txt") (some "1s") [104, 105] 1 =
      some ("/files/" ++ file_name "AAAAAAAA" (some "txt"),
        fsWrite fsEmpty
          (buildFullUploadPath ["u"]
            [Comp.normal (file_name "AAAAAAAA" (some "txt"))]) [104, 105],
        [])) ∧
    ("/files/" ++ file_name "AAAAAAAA" (some "txt"),
      fsWrite fsEmpty
        (buildFullUploadPath ["u"]
          [Comp.normal (file_name "AAAAAAAA" (some "txt"))]) [104, 105],
      ([] : List (List String × String))).2.2 =
      ([] : List (List String × String)) :=
  ⟨rfl,
   upload_file_registers_no_expiration ["u"] fsEmpty idsConst (some "txt")
     (some "1s") [104, 105] 1 _ rfl⟩

/-- The bounded-retry property claimed of the candidate-selection loop:
some retry bound `N` works for every state of the storage directory and
every id stream. -/
def uploadLoopBounded (base : List String) (extension : Option String) : Prop :=
  ∃ N, ∀ (fs : FS) (ids : Nat → String),
    (fresh_id_from base fs ids extension 0 N).isSome = true

theorem fresh_id_from_fsFull (n : Nat) :
    ∀ k, fresh_id_from ["u"] fsFull idsConst (some "txt") k n = none := by
  induction n with
  | zero => intro k; rfl
  | succ m ih =>
    intro k
    simp [fresh_id_from, existsAt, fsFull, ih]

/-- Counterexample for C8 as stated: no retry bound terminates the
candidate-selection loop for every state of the storage directory — in
the state where every path is occupied, the loop never breaks. -/
theorem upload_id_loop_unbounded_counterexample :
    ¬ uploadLoopBounded ["u"] (some "txt") := by
  intro hcl
  obtain ⟨N, h⟩ := hcl
  have h2 := h fsFull idsConst
  rw [fresh_id_from_fsFull N 0] at h2
  simp at h2

theorem fresh_id_first_aux (base : List String) (fs : FS) (ids : Nat → String)
    (extension : Option String) (extra : Nat) :
    ∀ n k,
      (∀ m, m < n →
        existsAt fs (candidatePath base ids extension (k + m)) = true) →
      existsAt fs (candidatePath base ids extension (k + n)) = false →
      fresh_id_from base fs ids extension k (n + 1 + extra) =
        some (ids (k + n)) := by
  intro n
  induction n with
  | zero =>
    intro k _h1 h2
    have e : 0 + 1 + extra = extra + 1 := by omega
    rw [e]
    simp only [Nat.add_zero] at h2
    simp [fresh_id_from, h2]
  | succ m ih =>
    intro k h1 h2
    have htaken : existsAt fs (candidatePath base ids extension k) = true := by
      have := h1 0 (Nat.succ_pos m)
      simpa using this
    have e : m + 1 + 1 + extra = (m + 1 + extra) + 1 := by omega
    rw [e]
    have step : fresh_id_from base fs ids extension k ((m + 1 + extra) + 1) =
        fresh_id_from base fs ids extension (k + 1) (m + 1 + extra) := by
      simp [fresh_id_from, htaken]
    rw [step]
    have e2 : k + (m + 1) = k + 1 + m := by omega
    rw [e2] at h2 ⊢
    exact ih (k + 1)
      (fun m2 hm2 => by
        have hh := h1 (m2 + 1) (by omega)
        have e3 : k + (m2 + 1) = k + 1 + m2 := by omega
        rw [e3] at hh
        exact hh)
      h2

/-- C8 (amended): the candidate-selection loop terminates exactly when
the id stream reaches a candidate whose resolved path does not exist:
if the first `n` candidates are all taken and candidate `n` is free,
the loop returns candidate `n` after `n` retries, whatever fuel beyond
that is available; no retry bound independent of the state of the
storage directory exists. -/
theorem upload_id_loop_first_free (base : List String) (fs : FS)
    (ids : Nat → String) (extension : Option String) (n extra : Nat)
    (h1 : ∀ m, m < n → existsAt fs (candidatePath base ids extension m) = true)
    (h2 : existsAt fs (candidatePath base ids extension n) = false) :
    fresh_id_from base fs ids extension 0 (n + 1 + extra) = some (ids n) := by
  have h := fresh_id_first_aux base fs ids extension extra n 0
    (fun m hm => by simpa using h1 m hm)
    (by simpa using h2)
  simpa using h

/-- Witness for C8 (amended): candidate `A.txt` is taken, candidate
`B.txt` is free, and the loop returns `B` with fuel two. -/
theorem upload_id_loop_first_free_witness :
    (∀ m, m < 1 →
      existsAt fsTakenA (candidatePath ["u"] idsAB (some "txt") m) = true) ∧
    existsAt fsTakenA (candidatePath ["u"] idsAB (some "txt") 1) = false ∧
    fresh_id_from ["u"] fsTakenA idsAB (some "txt") 0 2 = some (idsAB 1) :=
  ⟨by decide, by decide,
   upload_id_loop_first_free ["u"] fsTakenA idsAB (some "txt") 1 0
     (by decide) (by decide)⟩

/-! ## Lemmas about segment conversion and validation -/

theorem segPush_ok (buf : List String) (s : String) (p : List String)
    (h : segPush buf s = Except.ok p) :
    p = buf.dropLast ∨ p = buf ∨
    (p = buf ++ [s] ∧ headIs s '.' = false ∧ s ≠ "..") := by
  unfold segPush at h
  split at h
  · injection h with h
    exact Or.inl h.symm
  · split at h
    · exact Except.noConfusion h
    · split at h
      · exact Except.noConfusion h
      · split at h
        · exact Except.noConfusion h
        · split at h
          · exact Except.noConfusion h
          · split at h
            · exact Except.noConfusion h
            · split at h
              · exact Except.noConfusion h
              · split at h
                · injection h with h
                  exact Or.inr (Or.inl h.symm)
                · injection h with h
                  next h1 h2 _ _ _ _ _ _ =>
                    refine Or.inr (Or.inr ⟨h.symm, ?_, h1⟩)
                    cases hb : headIs s '.' with
                    | false => rfl
                    | true => exact absurd hb h2

theorem segPush_plain (buf : List String) (s : String)
    (h : plainSeg s = true) : segPush buf s = Except.ok (buf ++ [s]) := by
  simp only [plainSeg, Bool.and_eq_true, Bool.not_eq_true',
    decide_eq_true_eq] at h
  obtain ⟨⟨⟨⟨⟨⟨⟨hne, hh1⟩, hh2⟩, hl1⟩, hl2⟩, hl3⟩, hc⟩, hemp⟩ := h
  simp [segPush, hne, hh1, hh2, hl1, hl2, hl3, hc, hemp]

theorem toPathBuf_ok_plain (segs : List String) :
    ∀ (buf p : List String), toPathBuf buf segs = Except.ok p →
      (∀ s ∈ buf, headIs s '.' = false) →
      ∀ s ∈ p, headIs s '.' = false := by
  induction segs with
  | nil =>
    intro buf p h hb
    injection h with h
    exact h ▸ hb
  | cons s rest ih =>
    intro buf p h hb
    unfold toPathBuf at h
    cases hp : segPush buf s with
    | error e => rw [hp] at h; exact Except.noConfusion h
    | ok buf2 =>
      rw [hp] at h
      have hb2 : ∀ t ∈ buf2, headIs t '.' = false := by
        rcases segPush_ok buf s buf2 hp with h1 | h1 | ⟨h1, h2, _⟩
        · subst h1
          intro t ht
          exact hb t (List.mem_of_mem_dropLast ht)
        · subst h1
          exact hb
        · subst h1
          intro t ht
          rcases List.mem_append.mp ht with ht1 | ht1
          · exact hb t ht1
          · rw [List.mem_singleton.mp ht1]
            exact h2
      exact ih buf2 p h hb2

theorem toPathBuf_all_plain (segs : List String) :
    ∀ buf, (∀ s ∈ segs, plainSeg s = true) →
      toPathBuf buf segs = Except.ok (buf ++ segs) := by
  induction segs with
  | nil => intro buf _; simp [toPathBuf]
  | cons s rest ih =>
    intro buf h
    have hs := h s (List.mem_cons_self s rest)
    have hrest : ∀ t ∈ rest, plainSeg t = true :=
      fun t ht => h t (List.mem_cons_of_mem s ht)
    unfold toPathBuf
    rw [segPush_plain buf s hs]
    show toPathBuf (buf ++ [s]) rest = Except.ok (buf ++ s :: rest)
    rw [ih (buf ++ [s]) hrest]
    simp

theorem filterMap_normalName_map (l : List String) :
    (l.map Comp.normal).filterMap normalName = l := by
  induction l with
  | nil => rfl
  | cons x xs ih =>
    simp only [List.map_cons, List.filterMap_cons, normalName]
    rw [ih]

theorem validated_ok (segs p : List String)
    (h : validated_path_from_segments segs = Except.ok p) :
    toPathBuf [] segs = Except.ok p ∧
    hasDotDot (renderPath p).data = false := by
  unfold validated_path_from_segments at h
  cases ht : toPathBuf [] segs with
  | error e => rw [ht] at h; exact Except.noConfusion h
  | ok q =>
    rw [ht] at h
    cases hdd : hasDotDot (renderPath q).data with
    | true => simp [hdd] at h
    | false =>
      simp only [hdd, Bool.false_eq_true, if_false, Except.ok.injEq] at h
      subst h
      exact ⟨rfl, hdd⟩

theorem ne_dots_of_headIs_false (s : String) (h : headIs s '.' = false) :
    s ≠ ".." ∧ s ≠ "." :=
  ⟨fun e => absurd (e ▸ h) (by decide), fun e => absurd (e ▸ h) (by decide)⟩

/-- C6 (amended): a `..` path segment is resolved during segment
conversion by popping the previously accepted segment, before any
FileStore operation can run — `POST /files/a/b/../c/test.txt` resolves
to `a/c/test.txt` rather than being rejected — and every path accepted
by validation is free of parent- and current-directory names, so
joining it under the storage root stays inside the root; only paths
whose converted rendering still contains `..` are rejected with 400. -/
theorem validated_path_keeps_requests_inside_root :
    (validated_path_from_segments ["a", "b", "..", "c", "test.txt"] =
      Except.ok ["a", "c", "test.txt"]) ∧
    ∀ segs p base, validated_path_from_segments segs = Except.ok p →
      hasDotDot (renderPath p).data = false ∧
      (∀ s ∈ p, s ≠ ".." ∧ s ≠ ".") ∧
      buildFullUploadPath base (p.map Comp.normal) = base ++ p ∧
      base <+: buildFullUploadPath base (p.map Comp.normal) ∧
      resolveComps p = p := by
  constructor
  · rfl
  · intro segs p base h
    obtain ⟨ht, hdd⟩ := validated_ok segs p h
    have hplain : ∀ s ∈ p, headIs s '.' = false :=
      toPathBuf_ok_plain segs [] p ht (by intro s hs; cases hs)
    have hplain2 : ∀ s ∈ p, s ≠ ".." ∧ s ≠ "." :=
      fun s hs => ne_dots_of_headIs_false s (hplain s hs)
    have hmap : (p.map Comp.normal).filterMap normalName = p :=
      filterMap_normalName_map p
    refine ⟨hdd, hplain2, ?_, ?_, resolveComps_of_plain p hplain2⟩
    · rw [buildFullUploadPath, normalizeComponents_eq_filterMap, hmap]
    · exact ⟨normalizeComponents (p.map Comp.normal), rfl⟩

/-- Counterexample for C6 as stated: the segments of
`a/b/../c/test.txt` contain `..` after decoding, yet the request is not
rejected: validation accepts it as `a/c/test.txt`. -/
theorem validated_path_claim_counterexample :
    (["a", "b", "..", "c", "test.txt"].contains ".." = true) ∧
    validated_path_from_segments ["a", "b", "..", "c", "test.txt"] =
      Except.ok ["a", "c", "test.txt"] :=
  ⟨by decide, rfl⟩

/-- Witness for C6 (amended): the concrete accepted path
`a/c/test.txt` satisfies every consequence of validation. -/
theorem validated_path_keeps_requests_inside_root_witness :
    hasDotDot (renderPath ["a", "c", "test.txt"]).data = false ∧
    (∀ s ∈ ["a", "c", "test.txt"], s ≠ ".." ∧ s ≠ ".") ∧
    buildFullUploadPath ["u"] (["a", "c", "test.txt"].map Comp.normal) =
      ["u"] ++ ["a", "c", "test.txt"] ∧
    ["u"] <+: buildFullUploadPath ["u"] (["a", "c", "test.txt"].map Comp.normal) ∧
    resolveComps ["a", "c", "test.txt"] = ["a", "c", "test.txt"] :=
  validated_path_keeps_requests_inside_root.2
    ["a", "b", "..", "c", "test.txt"] ["a", "c", "test.txt"] ["u"] rfl

/-- C9 (amended): validation rejects with 400 any converted path whose
string rendering contains the substring `..` anywhere — in particular
filenames that merely embed consecutive dots, such as `a..b.txt` or
`archive..tar` — and accepts a path free of the `..` substring provided
each of its segments also passes the per-segment conversion checks (not
starting with a dot or an asterisk, not ending in a colon or an angle
bracket, not containing a separator, nonempty). -/
theorem validated_path_rejects_embedded_dotdot :
    (validated_path_from_segments ["a..b.txt"] =
      Except.error SegErr.dotDot) ∧
    (validated_path_from_segments ["archive..tar"] =
      Except.error SegErr.dotDot) ∧
    (∀ segs p, toPathBuf [] segs = Except.ok p →
      hasDotDot (renderPath p).data = true →
      validated_path_from_segments segs = Except.error SegErr.dotDot) ∧
    (∀ segs, (∀ s ∈ segs, plainSeg s = true) →
      hasDotDot (renderPath segs).data = false →
      validated_path_from_segments segs = Except.ok segs) := by
  refine ⟨rfl, rfl, ?_, ?_⟩
  · intro segs p ht hdd
    unfold validated_path_from_segments
    rw [ht]
    show (if hasDotDot (renderPath p).data = true then Except.error SegErr.dotDot
        else Except.ok p) = Except.error SegErr.dotDot
    rw [if_pos hdd]
  · intro segs hall hdd
    have ht2 : toPathBuf [] segs = Except.ok segs := by
      rw [toPathBuf_all_plain segs [] hall]
      simp
    unfold validated_path_from_segments
    rw [ht2]
    show (if hasDotDot (renderPath segs).data = true then Except.error SegErr.dotDot
        else Except.ok segs) = Except.ok segs
    rw [if_neg (by simp [hdd])]

/-- Counterexample for C9 as stated: the path `.hidden` is free of the
`..` substring, yet validation rejects it (segment conversion refuses
names that start with a dot). -/
theorem dotfile_rejected_counterexample :
    hasDotDot ".hidden".data = false ∧
    validated_path_from_segments [".hidden"] =
      Except.error SegErr.badSegment :=
  ⟨by decide, rfl⟩

/-- Witness for C9 (amended): a plain two-segment path free of `..` is
accepted unchanged. -/
theorem validated_path_rejects_embedded_dotdot_witness :
    validated_path_from_segments ["docs", "notes.txt"] =
      Except.ok ["docs", "notes.txt"] :=
  validated_path_rejects_embedded_dotdot.2.2.2 ["docs", "notes.txt"]
    (by decide) (by decide)

end Folio
